import Mathlib

/-!
Verification development for the fragrance-catalog analytic pipeline
(dataset loading, categorical filtering with fallbacks, aggregation,
top-N ranking and note tokenization).

The pipeline code lives in a single Python file built on pandas.  The
shallow embedding below models

- a catalog row as a structure of optional fields (a missing cell, the
  pandas NaN, is the value `none`);
- a pandas boolean-mask filter as `List.filter`;
- the sorts whose order the libraries fully determine (the Python
  sorted builtin over distinct values, Counter.most_common, whose tie
  order is documented stable) as the stable insertion sort from
  Mathlib, with explicit relations;
- the sorts whose tie order the libraries leave unspecified
  (DataFrame.sort_values and nlargest use a non-stable quicksort by
  default) as relations: the relation states exactly the documented
  contract — a permutation ordered by the sort column — and every
  theorem quantifies over all outputs admitted by it, so nothing proved
  below depends on an artifact tie order;
- Python strings as their character data (`List Char`), with trim and
  split implemented structurally so that everything evaluates inside
  the kernel; string comparison is lexicographic by code point, as in
  Python;
- numeric values as rationals (the claims under study concern which
  values enter a computation, never floating-point rounding).
-/

namespace Frag

/-! Lexicographic comparison of character data, matching Python string
comparison (code-point lexicographic). -/

def lexLeB : List Char → List Char → Bool
  | [], _ => true
  | _ :: _, [] => false
  | a :: as, b :: bs => if a < b then true else if b < a then false else lexLeB as bs

theorem lexLeB_total : ∀ as bs : List Char, lexLeB as bs = true ∨ lexLeB bs as = true := by
  intro as
  induction as with
  | nil => intro bs; left; rfl
  | cons a as ih =>
    intro bs
    cases bs with
    | nil => right; rfl
    | cons b bs =>
      rcases lt_trichotomy a b with h | h | h
      · left; simp [lexLeB, h]
      · subst h
        rcases ih bs with h' | h'
        · left; simp [lexLeB, lt_irrefl, h']
        · right; simp [lexLeB, lt_irrefl, h']
      · right; simp [lexLeB, h]

theorem lexLeB_trans : ∀ {as bs cs : List Char},
    lexLeB as bs = true → lexLeB bs cs = true → lexLeB as cs = true := by
  intro as
  induction as with
  | nil => intro bs cs _ _; rfl
  | cons a as ih =>
    intro bs cs hab hbc
    cases bs with
    | nil => simp [lexLeB] at hab
    | cons b bs =>
      cases cs with
      | nil => simp [lexLeB] at hbc
      | cons c cs =>
        simp only [lexLeB] at hab hbc ⊢
        by_cases h1 : a < b
        · by_cases h2 : b < c
          · simp [lt_trans h1 h2]
          · by_cases h3 : c < b
            · simp [h2, h3] at hbc
            · have hbc' : b = c := le_antisymm (not_lt.mp h3) (not_lt.mp h2)
              subst hbc'
              simp [h1]
        · by_cases h1' : b < a
          · simp [h1, h1'] at hab
          · have hab' : a = b := le_antisymm (not_lt.mp h1') (not_lt.mp h1)
            subst hab'
            simp [lt_irrefl] at hab
            by_cases h2 : a < c
            · simp [h2]
            · by_cases h3 : c < a
              · simp [h2, h3] at hbc
              · simp [h2, h3] at hbc ⊢
                exact ih hab hbc

theorem lexLeB_antisymm : ∀ {as bs : List Char},
    lexLeB as bs = true → lexLeB bs as = true → as = bs := by
  intro as
  induction as with
  | nil =>
    intro bs _ hba
    cases bs with
    | nil => rfl
    | cons b bs => simp [lexLeB] at hba
  | cons a as ih =>
    intro bs hab hba
    cases bs with
    | nil => simp [lexLeB] at hab
    | cons b bs =>
      simp only [lexLeB] at hab hba
      rcases lt_trichotomy a b with h | h | h
      · simp [not_lt_of_gt h, h] at hba
      · subst h
        simp [lt_irrefl] at hab hba
        exact congrArg (a :: ·) (ih hab hba)
      · simp [not_lt_of_gt h, h] at hab

/-! The string order used by the model of the Python sorted builtin. -/

def strLe (a b : String) : Prop := lexLeB a.data b.data = true

instance : DecidableRel strLe := fun a b =>
  inferInstanceAs (Decidable (lexLeB a.data b.data = true))

theorem strLe_total (a b : String) : strLe a b ∨ strLe b a := lexLeB_total a.data b.data

theorem strLe_trans {a b c : String} (h1 : strLe a b) (h2 : strLe b c) : strLe a c :=
  lexLeB_trans h1 h2

theorem strLe_antisymm {a b : String} (h1 : strLe a b) (h2 : strLe b a) : a = b := by
  cases a; cases b
  exact congrArg String.mk (lexLeB_antisymm h1 h2)

/-! Stability facts about Mathlib's insertion sort that the pandas and
Counter models rely on. -/

theorem orderedInsert_pairwise_lex {α : Type} (r : α → α → Prop) [DecidableRel r]
    (htrans : ∀ {a b c : α}, r a b → r b c → r a c)
    (htot : ∀ a b : α, r a b ∨ r b a)
    (R : α → α → Prop) (x : α) :
    ∀ ys : List α, ys.Pairwise (fun a b => r a b ∧ (r b a → R a b)) →
      (∀ y ∈ ys, R x y) →
      (List.orderedInsert r x ys).Pairwise (fun a b => r a b ∧ (r b a → R a b)) := by
  intro ys
  induction ys with
  | nil => intro _ _; simp
  | cons y ys ih =>
    intro hys hx
    rw [List.orderedInsert]
    by_cases hxy : r x y
    · rw [if_pos hxy]
      refine List.Pairwise.cons ?_ hys
      intro z hz
      rcases List.mem_cons.mp hz with hz | hz
      · subst hz
        exact ⟨hxy, fun _ => hx _ (List.mem_cons_self _ _)⟩
      · have hyz : r y z ∧ (r z y → R y z) :=
          (List.pairwise_cons.mp hys).1 z hz
        exact ⟨htrans hxy hyz.1, fun _ => hx z (List.mem_cons.mpr (Or.inr hz))⟩
    · rw [if_neg hxy]
      have hyx : r y x := (htot x y).resolve_left hxy
      refine List.Pairwise.cons ?_ ?_
      · intro z hz
        rcases (List.mem_orderedInsert r).mp hz with hz | hz
        · subst hz
          exact ⟨hyx, fun h => absurd h hxy⟩
        · exact (List.pairwise_cons.mp hys).1 z hz
      · exact ih (List.pairwise_cons.mp hys).2
          (fun z hz => hx z (List.mem_cons.mpr (Or.inr hz)))

theorem insertionSort_pairwise_lex {α : Type} (r : α → α → Prop) [DecidableRel r]
    (htrans : ∀ {a b c : α}, r a b → r b c → r a c)
    (htot : ∀ a b : α, r a b ∨ r b a)
    (R : α → α → Prop) :
    ∀ l : List α, l.Pairwise R →
      (List.insertionSort r l).Pairwise (fun a b => r a b ∧ (r b a → R a b)) := by
  intro l
  induction l with
  | nil => intro _; simp
  | cons x xs ih =>
    intro hl
    rw [List.insertionSort]
    refine orderedInsert_pairwise_lex r htrans htot R x _ (ih (List.pairwise_cons.mp hl).2) ?_
    intro y hy
    exact (List.pairwise_cons.mp hl).1 y ((List.mem_insertionSort r).mp hy)

theorem length_filter_add_length_filter_not {α : Type} (p : α → Bool) (l : List α) :
    (l.filter p).length + (l.filter (fun a => !(p a))).length = l.length := by
  induction l with
  | nil => rfl
  | cons x xs ih =>
    cases hx : p x <;> simp only [List.filter_cons, hx] <;> simp <;> omega

theorem pairwise_of_length_le_one {α : Type} {R : α → α → Prop} :
    ∀ l : List α, l.length ≤ 1 → l.Pairwise R := by
  intro l hl
  cases l with
  | nil => exact List.Pairwise.nil
  | cons x xs =>
    cases xs with
    | nil => exact List.pairwise_singleton R x
    | cons y ys => simp at hl

/-! First-occurrence deduplication, the model of pandas unique and of
insertion order of Python dict / Counter keys. -/

def uniqueFirst {α : Type} [DecidableEq α] : List α → List α
  | [] => []
  | x :: xs => x :: (uniqueFirst xs).filter (fun y => decide (y ≠ x))

theorem mem_uniqueFirst {α : Type} [DecidableEq α] {a : α} :
    ∀ {l : List α}, a ∈ uniqueFirst l ↔ a ∈ l := by
  intro l
  induction l with
  | nil => simp [uniqueFirst]
  | cons x xs ih =>
    simp only [uniqueFirst, List.mem_cons, List.mem_filter, ih, decide_eq_true_eq]
    constructor
    · rintro (h | ⟨h, _⟩)
      · exact Or.inl h
      · exact Or.inr h
    · rintro (h | h)
      · exact Or.inl h
      · by_cases hax : a = x
        · exact Or.inl hax
        · exact Or.inr ⟨h, hax⟩

theorem nodup_uniqueFirst {α : Type} [DecidableEq α] : ∀ l : List α, (uniqueFirst l).Nodup := by
  intro l
  induction l with
  | nil => simp [uniqueFirst]
  | cons x xs ih =>
    refine List.Nodup.cons ?_ (ih.filter _)
    intro hx
    have := (List.mem_filter.mp hx).2
    simp at this

def firstIdx {α : Type} [DecidableEq α] (a : α) : List α → Nat
  | [] => 0
  | x :: xs => if x = a then 0 else firstIdx a xs + 1

theorem uniqueFirst_pairwise_firstIdx {α : Type} [DecidableEq α] :
    ∀ l : List α, (uniqueFirst l).Pairwise (fun a b => firstIdx a l < firstIdx b l) := by
  intro l
  induction l with
  | nil => simp [uniqueFirst]
  | cons x xs ih =>
    rw [uniqueFirst]
    refine List.Pairwise.cons ?_ ?_
    · intro b hb
      have hbx : b ≠ x := by
        have := (List.mem_filter.mp hb).2
        simpa using this
      simp [firstIdx, hbx.symm]
    · refine ((ih.filter _).imp_of_mem ?_)
      intro a b ha hb hab
      have hax : a ≠ x := by
        have := (List.mem_filter.mp ha).2; simpa using this
      have hbx : b ≠ x := by
        have := (List.mem_filter.mp hb).2; simpa using this
      simpa [firstIdx, hax.symm, hbx.symm] using hab

/-! Row and table model.  A Row mirrors the dataframe columns the
dashboard touches: identifying text (Perfume), the three categorical
dimensions (Brand, Country, Gender) and the coerced numeric rating
columns.  A missing cell (pandas NaN) is the value none. -/

structure Row where
  perfume : Option String
  brand : Option String
  country : Option String
  gender : Option String
  ratingValue : Option ℚ
  ratingCount : Option ℚ
deriving DecidableEq

/-- Model of Series.isin applied to a cell of a categorical column: a
present cell passes iff its string is among the selected values; a
missing cell is never a member of a list of selected strings. -/
def memSel (cell : Option String) (sel : List String) : Bool :=
  match cell with
  | some s => decide (s ∈ sel)
  | none => false

/-- Model of the conjunctive boolean-mask filter over Brand, Country and
Gender (the filtered_df assignment). -/
def filterRows (sb sc sg : List String) (rows : List Row) : List Row :=
  rows.filter (fun r => memSel r.brand sb && memSel r.country sc && memSel r.gender sg)

/-- Empty-result fallback: if no data remains after filtering, use all
data (the if len(filtered_df) == 0 branch). -/
def applyFilter (sb sc sg : List String) (rows : List Row) : List Row :=
  if filterRows sb sc sg rows = [] then rows else filterRows sb sc sg rows

/-- Model of sorted(df[col].dropna().unique()): the distinct non-missing
values of a categorical column of the unfiltered table, in sorted order. -/
def domainOf (f : Row → Option String) (rows : List Row) : List String :=
  List.insertionSort strLe (uniqueFirst (rows.filterMap f))

/-- Model of default_brands = brands[:5] if len(brands) > 5 else brands. -/
def defaultBrands (rows : List Row) : List String :=
  let brands := domainOf Row.brand rows
  if brands.length > 5 then brands.take 5 else brands

/-- Model of default_countries = countries[:10] if len(countries) > 10 else countries. -/
def defaultCountries (rows : List Row) : List String :=
  let countries := domainOf Row.country rows
  if countries.length > 10 then countries.take 10 else countries

/-- Model of default_genders = genders (the whole domain). -/
def defaultGenders (rows : List Row) : List String := domainOf Row.gender rows

/-- Model of the empty-selection fallback: if not selected: selected = default. -/
def effectiveSel (sel : List String) (dflt : List String) : List String :=
  if sel = [] then dflt else sel

/-- C1: for every table and selections, the filtered table handed to
downstream consumers is a subsequence of the input table (row order
preserved, no row fabricated), and when the conjunctive membership
filter yields zero rows the result is exactly the whole unfiltered
table. -/
theorem C1_filter_sublist_and_fallback (sb sc sg : List String) (rows : List Row) :
    List.Sublist (applyFilter sb sc sg rows) rows ∧
      (filterRows sb sc sg rows = [] → applyFilter sb sc sg rows = rows) := by
  constructor
  · unfold applyFilter
    split
    · exact List.Sublist.refl rows
    · exact List.filter_sublist rows
  · intro h
    unfold applyFilter
    rw [if_pos h]

/-- C1 witness: a selection matching nothing triggers the fallback and
returns the whole table. -/
theorem C1_witness :
    applyFilter ["X"] ["France"] ["Men"]
        [⟨some "P", some "B", some "France", some "Men", some 4, some 100⟩] =
      [⟨some "P", some "B", some "France", some "Men", some 4, some 100⟩] :=
  (C1_filter_sublist_and_fallback ["X"] ["France"] ["Men"]
      [⟨some "P", some "B", some "France", some "Men", some 4, some 100⟩]).2 (by decide)

/-- C2: an empty selection for a dimension is replaced by the first K
distinct non-missing values of that column in sorted order, computed
from the full unfiltered table (K = 5 for brands, 10 for countries, the
whole domain for genders); the domain is strictly sorted and consists
of observed column values; in particular a sorted brand domain A,...,F
yields the effective brand filter A,...,E. -/
theorem C2_default_selections (rows : List Row) :
    effectiveSel [] (defaultBrands rows) = (domainOf Row.brand rows).take 5 ∧
    effectiveSel [] (defaultCountries rows) = (domainOf Row.country rows).take 10 ∧
    effectiveSel [] (defaultGenders rows) = domainOf Row.gender rows ∧
    (domainOf Row.brand rows).Pairwise (fun a b => strLe a b ∧ a ≠ b) ∧
    (∀ s ∈ domainOf Row.brand rows, some s ∈ rows.map Row.brand) ∧
    (domainOf Row.brand rows = ["A", "B", "C", "D", "E", "F"] →
      effectiveSel [] (defaultBrands rows) = ["A", "B", "C", "D", "E"]) := by
  have htake : ∀ l : List String, ∀ k : Nat,
      (if l.length > k then l.take k else l) = l.take k := by
    intro l k
    split
    · rfl
    · rename_i h
      exact (List.take_of_length_le (by omega)).symm
  have h1 : effectiveSel [] (defaultBrands rows) = (domainOf Row.brand rows).take 5 := by
    unfold effectiveSel defaultBrands
    rw [if_pos rfl]
    exact htake _ 5
  refine ⟨h1, ?_, ?_, ?_, ?_, ?_⟩
  · unfold effectiveSel defaultCountries
    rw [if_pos rfl]
    exact htake _ 10
  · unfold effectiveSel defaultGenders
    rw [if_pos rfl]
  · have hnd : (uniqueFirst (rows.filterMap Row.brand)).Pairwise (fun a b => a ≠ b) :=
      nodup_uniqueFirst _
    have := insertionSort_pairwise_lex strLe (fun hab hbc => strLe_trans hab hbc)
      strLe_total (fun a b => a ≠ b) _ hnd
    refine this.imp ?_
    rintro a b ⟨hab, hne⟩
    refine ⟨hab, ?_⟩
    intro heq
    subst heq
    exact hne hab rfl
  · intro s hs
    have hs' : s ∈ uniqueFirst (rows.filterMap Row.brand) :=
      (List.mem_insertionSort strLe).mp hs
    have hs'' : s ∈ rows.filterMap Row.brand := mem_uniqueFirst.mp hs'
    obtain ⟨r, hr, hrs⟩ := List.mem_filterMap.mp hs''
    exact List.mem_map.mpr ⟨r, hr, hrs⟩
  · intro hdom
    rw [h1, hdom]
    rfl

/-- C2 witness: a table whose six brands sort to A,...,F has effective
brand default A,...,E under the empty selection. -/
theorem C2_witness :
    effectiveSel []
        (defaultBrands
          [⟨none, some "F", none, none, none, none⟩,
           ⟨none, some "B", none, none, none, none⟩,
           ⟨none, some "A", none, none, none, none⟩,
           ⟨none, some "D", none, none, none, none⟩,
           ⟨none, some "C", none, none, none, none⟩,
           ⟨none, some "E", none, none, none, none⟩]) =
      ["A", "B", "C", "D", "E"] :=
  (C2_default_selections
      [⟨none, some "F", none, none, none, none⟩,
       ⟨none, some "B", none, none, none, none⟩,
       ⟨none, some "A", none, none, none, none⟩,
       ⟨none, some "D", none, none, none, none⟩,
       ⟨none, some "C", none, none, none, none⟩,
       ⟨none, some "E", none, none, none, none⟩]).2.2.2.2.2 (by decide)

/-- C9: whenever the empty-result fallback does not trigger, every row
of the filtered table has a present value in all three categorical
columns: a row with a missing Brand, Country or Gender fails set
membership for every selection list, so it can only reach downstream
consumers through the fallback path. -/
theorem C9_filtered_rows_have_categoricals (sb sc sg : List String) (rows : List Row) :
    (∀ r ∈ filterRows sb sc sg rows,
        r.brand.isSome ∧ r.country.isSome ∧ r.gender.isSome) ∧
    (∀ r ∈ applyFilter sb sc sg rows,
        (r.brand = none ∨ r.country = none ∨ r.gender = none) →
          filterRows sb sc sg rows = []) := by
  have hmain : ∀ r ∈ filterRows sb sc sg rows,
      r.brand.isSome ∧ r.country.isSome ∧ r.gender.isSome := by
    intro r hr
    have hp := (List.mem_filter.mp hr).2
    simp only [Bool.and_eq_true] at hp
    obtain ⟨⟨hb, hc⟩, hg⟩ := hp
    refine ⟨?_, ?_, ?_⟩
    · cases h : r.brand with
      | none => rw [h] at hb; simp [memSel] at hb
      | some s => rfl
    · cases h : r.country with
      | none => rw [h] at hc; simp [memSel] at hc
      | some s => rfl
    · cases h : r.gender with
      | none => rw [h] at hg; simp [memSel] at hg
      | some s => rfl
  refine ⟨hmain, ?_⟩
  intro r hr hmiss
  by_cases hempty : filterRows sb sc sg rows = []
  · exact hempty
  · exfalso
    rw [applyFilter, if_neg hempty] at hr
    obtain ⟨hb, hc, hg⟩ := hmain r hr
    rcases hmiss with h | h | h
    · rw [h] at hb; simp at hb
    · rw [h] at hc; simp at hc
    · rw [h] at hg; simp at hg

/-- C9 witness: a row missing all three categoricals passes no filter,
so when it appears downstream the filter result was empty. -/
theorem C9_witness :
    filterRows ["B1"] ["France"] ["Men"] [⟨some "P", none, none, none, none, none⟩] = [] :=
  (C9_filtered_rows_have_categoricals ["B1"] ["France"] ["Men"]
      [⟨some "P", none, none, none, none, none⟩]).2
    ⟨some "P", none, none, none, none, none⟩ (by decide) (by decide)

/-! Summary statistics over a numeric column.  A column is the list of
its cells, a missing cell being none.  pandas mean, median, std and the
notna count all skip missing values; a statistic that pandas would
report as NaN is modelled as none.  The standard deviation is
represented by its square, the sample variance (Series.std uses
ddof = 1): taking the square root preserves definedness, equality and
the set of values entering the computation, which is all the claims
under study concern. -/

def nonMissing (xs : List (Option ℚ)) : List ℚ := xs.filterMap id

/-- Model of Series.notna().sum(), the count statistic. -/
def seriesCount (xs : List (Option ℚ)) : Nat := (xs.filter (fun c => c.isSome)).length

/-- Model of Series.mean(): mean over non-missing values, NaN (none) when
there are none. -/
def seriesMean (xs : List (Option ℚ)) : Option ℚ :=
  let vs := nonMissing xs
  if vs = [] then none else some (vs.sum / (vs.length : ℚ))

/-- Model of Series.median(): sort the non-missing values ascending and
take the middle value, or the average of the two middle values. -/
def seriesMedian (xs : List (Option ℚ)) : Option ℚ :=
  let s := List.insertionSort (fun a b : ℚ => a ≤ b) (nonMissing xs)
  if s.length = 0 then none
  else if s.length % 2 = 1 then some (s.getD (s.length / 2) 0)
  else some ((s.getD (s.length / 2 - 1) 0 + s.getD (s.length / 2) 0) / 2)

/-- Model of the square of Series.std() (sample variance, ddof = 1): NaN
(none) when fewer than two non-missing values exist. -/
def seriesVarSample (xs : List (Option ℚ)) : Option ℚ :=
  let vs := nonMissing xs
  if vs.length < 2 then none
  else
    let m := vs.sum / (vs.length : ℚ)
    some ((vs.map (fun x => (x - m) ^ 2)).sum / ((vs.length : ℚ) - 1))

theorem nonMissing_length (xs : List (Option ℚ)) :
    seriesCount xs = (nonMissing xs).length := by
  induction xs with
  | nil => rfl
  | cons x xs ih =>
    cases x with
    | none => simpa [seriesCount, nonMissing, List.filter, List.filterMap] using ih
    | some v => simpa [seriesCount, nonMissing, List.filter, List.filterMap] using ih

theorem nonMissing_skip (pre post : List (Option ℚ)) :
    nonMissing (pre ++ none :: post) = nonMissing (pre ++ post) := by
  simp [nonMissing, List.filterMap_append, List.filterMap_cons]

/-- C3 (amended): every summary statistic is computed over the
non-missing values only: the count equals the number of non-missing
values; inserting a row whose cell is missing never changes mean,
median, standard deviation or count; and with zero non-missing values
the mean, median and standard deviation report undefined (not zero and
not a number) while the count reports 0. -/
theorem C3_stats_skip_missing (xs : List (Option ℚ)) :
    seriesCount xs = (nonMissing xs).length ∧
    (∀ pre post : List (Option ℚ),
      seriesMean (pre ++ none :: post) = seriesMean (pre ++ post) ∧
      seriesMedian (pre ++ none :: post) = seriesMedian (pre ++ post) ∧
      seriesVarSample (pre ++ none :: post) = seriesVarSample (pre ++ post) ∧
      seriesCount (pre ++ none :: post) = seriesCount (pre ++ post)) ∧
    (nonMissing xs = [] →
      seriesMean xs = none ∧ seriesMedian xs = none ∧
        seriesVarSample xs = none ∧ seriesCount xs = 0) := by
  refine ⟨nonMissing_length xs, ?_, ?_⟩
  · intro pre post
    have h := nonMissing_skip pre post
    refine ⟨?_, ?_, ?_, ?_⟩
    · simp only [seriesMean, h]
    · simp only [seriesMedian, h]
    · simp only [seriesVarSample, h]
    · rw [nonMissing_length, nonMissing_length, h]
  · intro h
    refine ⟨?_, ?_, ?_, ?_⟩
    · simp [seriesMean, h]
    · simp [seriesMedian, h]
    · simp [seriesVarSample, h]
    · rw [nonMissing_length, h]
      rfl

/-- C3 witness: a column of two missing cells has undefined mean, median
and standard deviation, and count 0. -/
theorem C3_witness :
    seriesMean [none, none] = none ∧ seriesMedian [none, none] = none ∧
      seriesVarSample [none, none] = none ∧ seriesCount [none, none] = 0 :=
  (C3_stats_skip_missing [none, none]).2.2 (by decide)

/-- C3 counterexample: the claim requires each of the four statistics —
including the count — to report undefined rather than zero when zero
non-missing values exist, but on a column whose single cell is missing
the count statistic is the plain number 0 (it also always equals the
number of non-missing values, so it cannot simultaneously be an
undefined sentinel). -/
theorem C3_counterexample :
    nonMissing [(none : Option ℚ)] = [] ∧ seriesCount [(none : Option ℚ)] = 0 := by
  constructor
  · rfl
  · rfl

/-- Sanity scenario from the specification: ratings 4.5, missing, 3.0
give mean 3.75, median 3.75, count 2 and a standard deviation computed
over the two defined values only (sample variance 9/8). -/
theorem stats_scenario :
    seriesMean [some (9 / 2 : ℚ), none, some 3] = some (15 / 4) ∧
    seriesMedian [some (9 / 2 : ℚ), none, some 3] = some (15 / 4) ∧
    seriesCount [some (9 / 2 : ℚ), none, some 3] = 2 ∧
    seriesVarSample [some (9 / 2 : ℚ), none, some 3] = some (9 / 8) := by
  have hnm : nonMissing [some (9 / 2 : ℚ), none, some 3] = [9 / 2, 3] := by
    simp [nonMissing, List.filterMap]
  have hsorted : List.insertionSort (fun a b : ℚ => a ≤ b) [9 / 2, 3] = [3, 9 / 2] := by
    have : ¬((9 : ℚ) / 2 ≤ 3) := by norm_num
    simp [List.insertionSort, List.orderedInsert, this]
  have hne : ([9 / 2, 3] : List ℚ) ≠ [] := by simp
  have hlt : ¬(([9 / 2, 3] : List ℚ).length < 2) := by simp
  refine ⟨?_, ?_, ?_, ?_⟩
  · simp only [seriesMean, hnm, if_neg hne]
    norm_num
  · simp only [seriesMedian, hnm, hsorted]
    norm_num [List.getD]
  · rw [nonMissing_length, hnm]
    rfl
  · simp only [seriesVarSample, hnm, if_neg hlt]
    norm_num

/-! Top-N rows by a numeric column.  DataFrame.nlargest(n, col) is
documented equivalent to sort_values(col, ascending=False).head(n):
rows with a defined value come first in descending order of the value,
rows with a missing value follow them (NaN sorts last but is kept, so
the result is padded with missing-valued rows once the defined values
are exhausted), and the first n rows of that arrangement are returned.
The libraries leave the relative order of rows tied on the value
unspecified (the default quicksort is not stable), so the model is a
relation: an output is admissible iff it is the n-prefix of some
arrangement putting a permutation of the defined rows, descending,
before the missing-valued rows.  Every theorem below holds for every
admissible output, hence for the program's. -/

def definedBy (key : Row → Option ℚ) (rows : List Row) : List Row :=
  rows.filter (fun r => (key r).isSome)

def missingBy (key : Row → Option ℚ) (rows : List Row) : List Row :=
  rows.filter (fun r => !(key r).isSome)

def keyDesc (key : Row → Option ℚ) : Row → Row → Prop :=
  fun a b => (key b).getD 0 ≤ (key a).getD 0

/-- Contract of DataFrame.nlargest(n, col): out is an admissible result
iff it is the first n rows of some permutation of the defined rows in
descending column order, followed by some permutation of the
missing-valued rows. -/
def nlargestRel (n : Nat) (key : Row → Option ℚ) (rows : List Row) (out : List Row) : Prop :=
  ∃ sorted tail : List Row,
    List.Perm sorted (definedBy key rows) ∧
    sorted.Pairwise (keyDesc key) ∧
    List.Perm tail (missingBy key rows) ∧
    out = (sorted ++ tail).take n

/-- Contract of the top_rated display: an nlargest(10, Rating Value)
result projected to the Perfume, Brand and Rating Value columns. -/
def topRatedRel (rows : List Row)
    (out : List (Option String × Option String × Option ℚ)) : Prop :=
  ∃ sel, nlargestRel 10 Row.ratingValue rows sel ∧
    out = sel.map (fun r => (r.perfume, r.brand, r.ratingValue))

/-- Contract of the most_reviewed display: an nlargest(10, Rating Count)
result projected to the Perfume, Brand and Rating Count columns. -/
def mostReviewedRel (rows : List Row)
    (out : List (Option String × Option String × Option ℚ)) : Prop :=
  ∃ sel, nlargestRel 10 Row.ratingCount rows sel ∧
    out = sel.map (fun r => (r.perfume, r.brand, r.ratingCount))

/-- C4 counterexample: the claim says the result length is
min(n, number of rows with defined C), but on a two-row table with one
defined rating the program's nlargest(2) keeps both rows, padding with
the missing-valued row: the admissible (and actual) output has length
2 while min(2, 1) = 1 — and it contains a row whose rating is
missing. -/
theorem C4_counterexample :
    nlargestRel 2 Row.ratingValue
        [⟨some "P", some "B", none, none, some 5, none⟩,
         ⟨some "Q", some "C", none, none, none, none⟩]
        [⟨some "P", some "B", none, none, some 5, none⟩,
         ⟨some "Q", some "C", none, none, none, none⟩] ∧
      ([⟨some "P", some "B", none, none, some 5, none⟩,
        ⟨some "Q", some "C", none, none, none, none⟩] : List Row).length ≠
        min 2 (definedBy Row.ratingValue
          [⟨some "P", some "B", none, none, some 5, none⟩,
           ⟨some "Q", some "C", none, none, none, none⟩]).length ∧
      Row.ratingValue ⟨some "Q", some "C", none, none, none, none⟩ = none := by
  refine ⟨⟨[⟨some "P", some "B", none, none, some 5, none⟩],
    [⟨some "Q", some "C", none, none, none, none⟩], ?_, ?_, ?_, rfl⟩, ?_, rfl⟩
  · decide
  · exact List.pairwise_singleton _ _
  · decide
  · decide

/-- C4 (amended): every admissible nlargest output consists of the
first n rows of the table rearranged with defined-valued rows first in
descending column order and missing-valued rows after them: its length
is min(n, total row count); a missing value never appears above a
defined one, and whenever at least n rows have a defined value the
output contains only defined-valued rows; the displayed tables contain
only projections of input rows to the requested columns.  (The
relative order of rows tied on the column is left unspecified by the
program's non-stable sort and is not claimed.) -/
theorem C4_top_n (n : Nat) (key : Row → Option ℚ) (rows : List Row)
    (out : List Row) (hrel : nlargestRel n key rows out) :
    out.length = min n rows.length ∧
    out.Pairwise (fun a b => (key b).isSome = true →
      (key a).isSome = true ∧ (key b).getD 0 ≤ (key a).getD 0) ∧
    (n ≤ (definedBy key rows).length → ∀ r ∈ out, (key r).isSome) ∧
    (∀ outLen : List (Option String × Option String × Option ℚ),
      topRatedRel rows outLen →
        ∀ x ∈ outLen, ∃ r ∈ rows, x = (r.perfume, r.brand, r.ratingValue)) ∧
    (∀ outLen : List (Option String × Option String × Option ℚ),
      mostReviewedRel rows outLen →
        ∀ x ∈ outLen, ∃ r ∈ rows, x = (r.perfume, r.brand, r.ratingCount)) := by
  obtain ⟨sorted, tail, hperm, hsort, hpermt, hout⟩ := hrel
  have hsortmem : ∀ r ∈ sorted, (key r).isSome = true := by
    intro r hr
    exact (List.mem_filter.mp (hperm.mem_iff.mp hr)).2
  have htailmem : ∀ r ∈ tail, (key r).isSome = false := by
    intro r hr
    have := (List.mem_filter.mp (hpermt.mem_iff.mp hr)).2
    simpa using this
  have hmemrows : ∀ m (k : Row → Option ℚ) (sel : List Row),
      nlargestRel m k rows sel → ∀ r ∈ sel, r ∈ rows := by
    intro m k sel hsel r hr
    obtain ⟨s, t, hp, _, hpt, heq⟩ := hsel
    subst heq
    rcases List.mem_append.mp (List.mem_of_mem_take hr) with h | h
    · exact (List.mem_filter.mp (hp.mem_iff.mp h)).1
    · exact (List.mem_filter.mp (hpt.mem_iff.mp h)).1
  refine ⟨?_, ?_, ?_, ?_, ?_⟩
  · rw [hout, List.length_take, List.length_append,
      hperm.length_eq, hpermt.length_eq]
    rw [definedBy, missingBy, length_filter_add_length_filter_not]
  · have happ : (sorted ++ tail).Pairwise (fun a b => (key b).isSome = true →
        (key a).isSome = true ∧ (key b).getD 0 ≤ (key a).getD 0) := by
      rw [List.pairwise_append]
      refine ⟨?_, ?_, ?_⟩
      · refine hsort.imp_of_mem ?_
        intro a b ha hb hab _
        exact ⟨hsortmem a ha, hab⟩
      · refine List.pairwise_of_forall_mem_list ?_
        intro a _ b hb hsome
        rw [htailmem b hb] at hsome
        cases hsome
      · intro a _ b hb hsome
        rw [htailmem b hb] at hsome
        cases hsome
    rw [hout]
    exact happ.sublist (List.take_sublist n _)
  · intro hn r hr
    rw [hout] at hr
    have hlen : n ≤ sorted.length := by rw [hperm.length_eq]; exact hn
    rw [List.take_append_of_le_length hlen] at hr
    exact hsortmem r (List.mem_of_mem_take hr)
  · intro outLen hrelp x hx
    obtain ⟨sel, hsel, heq⟩ := hrelp
    subst heq
    obtain ⟨r, hr, hxr⟩ := List.mem_map.mp hx
    exact ⟨r, hmemrows 10 Row.ratingValue sel hsel r hr, hxr.symm⟩
  · intro outLen hrelp x hx
    obtain ⟨sel, hsel, heq⟩ := hrelp
    subst heq
    obtain ⟨r, hr, hxr⟩ := List.mem_map.mp hx
    exact ⟨r, hmemrows 10 Row.ratingCount sel hsel r hr, hxr.symm⟩

/-- C4 witness: for the two-row table with one defined rating, the
admissible nlargest(1) output, a single defined row, indeed has length
min(1, 2) = 1. -/
theorem C4_witness :
    ([⟨some "P", some "B", none, none, some 5, none⟩] : List Row).length =
      min 1 ([⟨some "P", some "B", none, none, some 5, none⟩,
              ⟨some "Q", some "C", none, none, none, none⟩] : List Row).length :=
  (C4_top_n 1 Row.ratingValue
      [⟨some "P", some "B", none, none, some 5, none⟩,
       ⟨some "Q", some "C", none, none, none, none⟩]
      [⟨some "P", some "B", none, none, some 5, none⟩]
      ⟨[⟨some "P", some "B", none, none, some 5, none⟩],
       [⟨some "Q", some "C", none, none, none, none⟩],
       by decide, List.pairwise_singleton _ _, by decide, rfl⟩).1

/-! Grouped ranking.  The dashboard computes
dropna(subset=[value]).groupby(group)[value].agg([mean, count])
.sort_values(mean, ascending=False).head(n).  groupby emits group keys
in ascending sorted order and drops missing keys, a deterministic,
documented order modelled with the stable sort; sort_values over the
mean column, however, uses the default non-stable quicksort, whose
order among groups tied on the mean the library leaves unspecified —
so the ranking is modelled as a relation stating exactly the
documented contract (a permutation of the grouped statistics in
descending mean order, cut to n), and the theorems quantify over all
outputs it admits. -/

structure GroupStat where
  key : String
  mean : ℚ
  count : Nat
deriving DecidableEq

/-- The non-missing values of the value column among the rows of one
group (rows whose group key equals k), used for that group's mean and
count. -/
def groupVals (keyOf : Row → Option String) (valOf : Row → Option ℚ)
    (rows : List Row) (k : String) : List ℚ :=
  ((rows.filter (fun r => (valOf r).isSome)).filter
    (fun r => decide (keyOf r = some k))).filterMap valOf

/-- Model of dropna(subset=[value]).groupby(group)[value].agg([mean, count]):
one (key, mean, count) per distinct group key observed among rows with a
defined value, keys ascending. -/
def groupStats (keyOf : Row → Option String) (valOf : Row → Option ℚ)
    (rows : List Row) : List GroupStat :=
  let defined := rows.filter (fun r => (valOf r).isSome)
  let keys := List.insertionSort strLe (uniqueFirst (defined.filterMap keyOf))
  keys.map (fun k =>
    let vs := groupVals keyOf valOf rows k
    ⟨k, vs.sum / (vs.length : ℚ), vs.length⟩)

/-- Contract of sort_values(mean, ascending=False).head(n) applied to
the grouped statistics: out is an admissible ranking iff it is the
n-prefix of some permutation of the grouped statistics in descending
mean order. -/
def groupRankRel (keyOf : Row → Option String) (valOf : Row → Option ℚ)
    (n : Nat) (rows : List Row) (out : List GroupStat) : Prop :=
  ∃ sorted : List GroupStat,
    List.Perm sorted (groupStats keyOf valOf rows) ∧
    sorted.Pairwise (fun a b => b.mean ≤ a.mean) ∧
    out = sorted.take n

/-- Contract of brand_ratings (top 15 brands by average rating). -/
def brandRatingsRel (rows : List Row) (out : List GroupStat) : Prop :=
  groupRankRel Row.brand Row.ratingValue 15 rows out

/-- Contract of country_ratings (top 15 countries by average rating). -/
def countryRatingsRel (rows : List Row) (out : List GroupStat) : Prop :=
  groupRankRel Row.country Row.ratingValue 15 rows out

theorem groupStats_mem (keyOf : Row → Option String) (valOf : Row → Option ℚ)
    (rows : List Row) :
    ∀ g ∈ groupStats keyOf valOf rows,
      g.mean = (groupVals keyOf valOf rows g.key).sum /
          ((groupVals keyOf valOf rows g.key).length : ℚ) ∧
      g.count = (groupVals keyOf valOf rows g.key).length ∧ 0 < g.count := by
  intro g hg
  rw [groupStats] at hg
  obtain ⟨k, hk, hgk⟩ := List.mem_map.mp hg
  subst hgk
  refine ⟨rfl, rfl, ?_⟩
  have hk1 : k ∈ uniqueFirst ((rows.filter (fun r => (valOf r).isSome)).filterMap
      keyOf) := (List.mem_insertionSort _).mp hk
  have hk2 := mem_uniqueFirst.mp hk1
  obtain ⟨r, hr, hrk⟩ := List.mem_filterMap.mp hk2
  have hrv : (valOf r).isSome := (List.mem_filter.mp hr).2
  obtain ⟨v, hv⟩ := Option.isSome_iff_exists.mp hrv
  have hrmem : r ∈ (rows.filter (fun r => (valOf r).isSome)).filter
      (fun r => decide (keyOf r = some k)) :=
    List.mem_filter.mpr ⟨hr, by simp [hrk]⟩
  have hvmem : v ∈ groupVals keyOf valOf rows k :=
    List.mem_filterMap.mpr ⟨r, hrmem, hv⟩
  simp only [List.length_pos]
  exact List.ne_nil_of_mem hvmem

theorem groupStats_append_missing (keyOf : Row → Option String) (valOf : Row → Option ℚ)
    (rows : List Row) (r : Row) (hr : valOf r = none) :
    groupStats keyOf valOf (rows ++ [r]) = groupStats keyOf valOf rows := by
  have hdef : (rows ++ [r]).filter (fun r => (valOf r).isSome) =
      rows.filter (fun r => (valOf r).isSome) := by
    rw [List.filter_append]
    simp [List.filter, hr]
  have hvals : ∀ k, groupVals keyOf valOf (rows ++ [r]) k =
      groupVals keyOf valOf rows k := by
    intro k
    rw [groupVals, groupVals, hdef]
  have hfun : (fun k =>
      let vs := groupVals keyOf valOf (rows ++ [r]) k
      (⟨k, vs.sum / (vs.length : ℚ), vs.length⟩ : GroupStat)) =
    (fun k =>
      let vs := groupVals keyOf valOf rows k
      (⟨k, vs.sum / (vs.length : ℚ), vs.length⟩ : GroupStat)) := by
    funext k
    rw [hvals k]
  rw [groupStats, groupStats, hdef, hfun]

/-- Grouping two one-rating rows of brands A and B gives the two groups
with mean 1 and count 1, keys ascending (the groupby order). -/
theorem groupStats_example :
    groupStats Row.brand Row.ratingValue
      [⟨none, some "A", none, none, some 1, none⟩,
       ⟨none, some "B", none, none, some 1, none⟩] =
    [⟨"A", 1, 1⟩, ⟨"B", 1, 1⟩] := by
  have h : groupStats Row.brand Row.ratingValue
      [⟨none, some "A", none, none, some 1, none⟩,
       ⟨none, some "B", none, none, some 1, none⟩] =
    [⟨"A", ([(1 : ℚ)]).sum / ((1 : Nat) : ℚ), 1⟩,
     ⟨"B", ([(1 : ℚ)]).sum / ((1 : Nat) : ℚ), 1⟩] := rfl
  rw [h]
  norm_num

/-- C5 counterexample: the claim says ties on the mean are broken by
the group key, but the program only guarantees a descending-mean
arrangement of the grouped statistics (its default sort is not
stable): on the table with brands A and B both of mean rating 1, the
output placing B before A is admitted by that contract and violates
the key-order tie-break. -/
theorem C5_counterexample :
    groupRankRel Row.brand Row.ratingValue 15
        [⟨none, some "A", none, none, some 1, none⟩,
         ⟨none, some "B", none, none, some 1, none⟩]
        [⟨"B", 1, 1⟩, ⟨"A", 1, 1⟩] ∧
      ¬ (([⟨"B", 1, 1⟩, ⟨"A", 1, 1⟩] : List GroupStat).Pairwise
          (fun a b => a.mean = b.mean → strLe a.key b.key)) := by
  constructor
  · refine ⟨[⟨"B", 1, 1⟩, ⟨"A", 1, 1⟩], ?_, ?_, rfl⟩
    · rw [groupStats_example]
      exact List.Perm.swap _ _ _
    · refine List.Pairwise.cons ?_ (List.pairwise_singleton _ _)
      intro b hb
      have hbeq : b = ⟨"A", 1, 1⟩ := List.mem_singleton.mp hb
      subst hbeq
      exact le_refl 1
  · intro h
    have h1 := (List.pairwise_cons.mp h).1 ⟨"A", 1, 1⟩ (List.mem_singleton.mpr rfl)
    exact absurd (h1 rfl) (by decide)

/-- C5 (amended): every admissible grouped ranking has at most n
groups; every returned group has a positive count and carries the mean
and count of the non-missing values of the value column within that
group (so a group with zero non-missing values never appears); groups
come in descending mean order; and a row with a missing value never
influences which rankings are admissible (it is excluded before
grouping).  (The relative order of groups tied on the mean is left
unspecified by the program's non-stable sort and is not claimed.) -/
theorem C5_group_rank (keyOf : Row → Option String) (valOf : Row → Option ℚ)
    (n : Nat) (rows : List Row) (out : List GroupStat)
    (hrel : groupRankRel keyOf valOf n rows out) :
    out.length ≤ n ∧
    (∀ g ∈ out,
      0 < g.count ∧
      g.mean = (groupVals keyOf valOf rows g.key).sum /
          ((groupVals keyOf valOf rows g.key).length : ℚ) ∧
      g.count = (groupVals keyOf valOf rows g.key).length) ∧
    out.Pairwise (fun a b => b.mean ≤ a.mean) ∧
    (∀ r : Row, ∀ out' : List GroupStat, valOf r = none →
      (groupRankRel keyOf valOf n (rows ++ [r]) out' ↔
        groupRankRel keyOf valOf n rows out')) := by
  obtain ⟨sorted, hperm, hsort, hout⟩ := hrel
  refine ⟨?_, ?_, ?_, ?_⟩
  · rw [hout]
    exact List.length_take_le n _
  · intro g hg
    rw [hout] at hg
    have hg' : g ∈ groupStats keyOf valOf rows :=
      hperm.mem_iff.mp (List.mem_of_mem_take hg)
    obtain ⟨hmean, hcount, hpos⟩ := groupStats_mem keyOf valOf rows g hg'
    exact ⟨hpos, hmean, hcount⟩
  · rw [hout]
    exact hsort.sublist (List.take_sublist n _)
  · intro r out' hr
    rw [groupRankRel, groupRankRel, groupStats_append_missing keyOf valOf rows r hr]

/-- C5 witness: for the one-row table of brand B, the grouped ranking
taking the grouped statistics directly is admissible and has at most 15
groups. -/
theorem C5_witness :
    ((groupStats Row.brand Row.ratingValue
        [⟨some "P", some "B", none, none, some 1, none⟩]).take 15).length ≤ 15 :=
  (C5_group_rank Row.brand Row.ratingValue 15
      [⟨some "P", some "B", none, none, some 1, none⟩]
      ((groupStats Row.brand Row.ratingValue
        [⟨some "P", some "B", none, none, some 1, none⟩]).take 15)
      ⟨groupStats Row.brand Row.ratingValue
          [⟨some "P", some "B", none, none, some 1, none⟩],
       List.Perm.refl _,
       pairwise_of_length_le_one _
         (le_of_eq (show (groupStats Row.brand Row.ratingValue
           [⟨some "P", some "B", none, none, some 1, none⟩]).length = 1 from rfl)),
       rfl⟩).1

/-! Free-text note analysis.  Python string trimming and whitespace
splitting are modelled structurally on the character data so that they
evaluate inside the kernel: str.strip() drops leading and trailing
whitespace, str.split() with no argument splits on runs of whitespace
and never yields an empty token. -/

def trimChars (cs : List Char) : List Char :=
  ((cs.dropWhile Char.isWhitespace).reverse.dropWhile Char.isWhitespace).reverse

def splitWsAux : List Char → List Char → List (List Char)
  | [], acc => if acc = [] then [] else [acc.reverse]
  | c :: cs, acc =>
    if c.isWhitespace then
      if acc = [] then splitWsAux cs [] else acc.reverse :: splitWsAux cs []
    else splitWsAux cs (c :: acc)

/-- Model of str.split() with no argument: tokens between whitespace
runs, empty tokens never produced. -/
def splitWs (cs : List Char) : List (List Char) := splitWsAux cs []

/-- A table cell after loading: a text value, a coerced numeric value,
or missing (NaN). -/
inductive Cell where
  | str (s : String)
  | num (q : ℚ)
  | missing
deriving DecidableEq

/-- Tokens contributed by one cell of the note column: dropna skips a
missing cell, the isinstance check skips a non-string cell, the
strip() guard skips an all-whitespace cell, and otherwise the cell is
split on whitespace runs (the per-token strip and non-empty filter in
the code are no-ops on tokens of str.split()). -/
def cellTokens (c : Cell) : List String :=
  match c with
  | .str s => if trimChars s.data = [] then [] else (splitWs s.data).map String.mk
  | .num _ => []
  | .missing => []

/-- A loaded table: the header names and the cell rows. -/
structure CsvTable where
  header : List String
  rows : List (List Cell)
deriving DecidableEq

/-- The cells of a named column, in row order; an absent column name
contributes no cells (the col_name in filtered_df.columns guard). -/
def colCells (t : CsvTable) (col : String) : List Cell :=
  match t.header.findIdx? (fun h => h == col) with
  | none => []
  | some i => t.rows.map (fun (row : List Cell) => row.getD i Cell.missing)

/-- Every token of the note column across all rows of the table, in
scan order. -/
def allTokens (t : CsvTable) (col : String) : List String :=
  ((colCells t col).map cellTokens).flatten

/-- Model of Counter(tokens): one (token, count) pair per distinct
token, keyed in first-occurrence order, counting occurrences across
the whole list. -/
def tally (ts : List String) : List (String × Nat) :=
  (uniqueFirst ts).map (fun s => (s, ts.count s))

def countDesc : (String × Nat) → (String × Nat) → Prop := fun a b => b.2 ≤ a.2

instance : DecidableRel countDesc := fun a b =>
  inferInstanceAs (Decidable (b.2 ≤ a.2))

/-- Model of Counter.most_common(n): stable descending order on the
count, first n entries. -/
def mostCommon (n : Nat) (counts : List (String × Nat)) : List (String × Nat) :=
  (List.insertionSort countDesc counts).take n

/-- Model of get_top_notes(col_name, top_n). -/
def getTopNotes (t : CsvTable) (col : String) (n : Nat) : List (String × Nat) :=
  mostCommon n (tally (allTokens t col))

theorem findIdx_eq_none_of_not_mem (l : List String) (c : String) (h : c ∉ l) :
    l.findIdx? (fun h => h == c) = none := by
  induction l with
  | nil => rfl
  | cons x xs ih =>
    have hx : (x == c) = false := by
      cases hbe : (x == c)
      · rfl
      · exact absurd (by simp [eq_of_beq hbe]) h
    have hxs : c ∉ xs := fun hc => h (List.mem_cons.mpr (Or.inr hc))
    rw [List.findIdx?_cons]
    simp [hx, ih hxs]

theorem count_flatten_replicate {α : Type} [DecidableEq α] (a : α) (L : List α) :
    ∀ r : Nat, ((List.replicate r L).flatten).count a = r * L.count a := by
  intro r
  induction r with
  | zero => simp
  | succ k ih =>
    rw [List.replicate_succ]
    show (L ++ (List.replicate k L).flatten).count a = _
    rw [List.count_append, ih]
    ring

theorem uniqueFirst_two {α : Type} [DecidableEq α] (a b : α) (hab : b ≠ a) :
    ∀ l : List α, (∀ x ∈ l, x = a ∨ x = b) → uniqueFirst (a :: b :: l) = [a, b] := by
  intro l hl
  rw [uniqueFirst, uniqueFirst, List.filter_cons]
  rw [if_pos (by simp [hab])]
  rw [List.filter_filter]
  have hkill : (uniqueFirst l).filter
      (fun y => decide (y ≠ a) && decide (y ≠ b)) = [] := by
    rw [List.filter_eq_nil_iff]
    intro x hx
    rcases hl x (mem_uniqueFirst.mp hx) with h | h <;> simp [h]
  rw [hkill]

theorem tally_pairwise_firstIdx (ts : List String) :
    (tally ts).Pairwise (fun p q => firstIdx p.1 ts < firstIdx q.1 ts) := by
  rw [tally, List.pairwise_map]
  exact uniqueFirst_pairwise_firstIdx ts

theorem tally_mem (ts : List String) :
    ∀ p ∈ tally ts, p.2 = ts.count p.1 ∧ 0 < p.2 := by
  intro p hp
  rw [tally] at hp
  obtain ⟨s, hs, hps⟩ := List.mem_map.mp hp
  subst hps
  refine ⟨rfl, ?_⟩
  exact List.count_pos_iff.mpr (mem_uniqueFirst.mp hs)

/-- C6: the token ranking counts, case-sensitively, the whitespace-run
tokens of every present, non-blank note cell across all rows: every
returned pair carries the total occurrence count of its token over the
whole table, pairs are in descending count order with ties in
first-occurrence order, at most n pairs are returned; and (the scenario)
on a non-empty table whose every note cell is the text
rose rose musk, the ranking for n at least 2 is exactly
rose with twice the row count followed by musk with the row count. -/
theorem C6_top_tokens (t : CsvTable) (col : String) (n : Nat) :
    (∀ p ∈ getTopNotes t col n,
        p.2 = (allTokens t col).count p.1 ∧ 0 < p.2) ∧
    (getTopNotes t col n).Pairwise
      (fun p q => q.2 ≤ p.2 ∧
        (p.2 ≤ q.2 → firstIdx p.1 (allTokens t col) < firstIdx q.1 (allTokens t col))) ∧
    (getTopNotes t col n).length ≤ n ∧
    (∀ r m : Nat, 1 ≤ r → 2 ≤ m →
      getTopNotes ⟨["Top"], List.replicate r [Cell.str "rose rose musk"]⟩ "Top" m =
        [("rose", 2 * r), ("musk", r)]) := by
  refine ⟨?_, ?_, ?_, ?_⟩
  · intro p hp
    have hp' : p ∈ tally (allTokens t col) :=
      (List.mem_insertionSort _).mp (List.mem_of_mem_take hp)
    exact tally_mem _ p hp'
  · have hlex := insertionSort_pairwise_lex countDesc
      (fun hab hbc => le_trans hbc hab) (fun a b => le_total _ _)
      (fun p q => firstIdx p.1 (allTokens t col) < firstIdx q.1 (allTokens t col)) _
      (tally_pairwise_firstIdx (allTokens t col))
    exact (hlex.sublist (List.take_sublist n _)).imp (fun h => h)
  · exact List.length_take_le n _
  · intro r m hr hm
    have hcell : cellTokens (Cell.str "rose rose musk") = ["rose", "rose", "musk"] := by
      decide
    have htoks : allTokens ⟨["Top"], List.replicate r [Cell.str "rose rose musk"]⟩ "Top" =
        (List.replicate r (["rose", "rose", "musk"] : List String)).flatten := by
      have h1 : colCells ⟨["Top"], List.replicate r [Cell.str "rose rose musk"]⟩ "Top" =
          List.replicate r (Cell.str "rose rose musk") := by
        rw [colCells]
        rw [show List.findIdx? (fun h => h == "Top") (["Top"] : List String) = some 0 from
          by decide]
        show List.map (fun (row : List Cell) => row.getD 0 Cell.missing)
            (List.replicate r [Cell.str "rose rose musk"]) = _
        rw [List.map_replicate]
        rfl
      rw [allTokens, h1, List.map_replicate, hcell]
    obtain ⟨r', rfl⟩ : ∃ r', r = r' + 1 := ⟨r - 1, by omega⟩
    have hflat : (List.replicate (r' + 1) (["rose", "rose", "musk"] : List String)).flatten =
        "rose" :: "rose" :: "musk" ::
          (List.replicate r' (["rose", "rose", "musk"] : List String)).flatten := by
      rw [List.replicate_succ]
      rfl
    have hmem' : ∀ x ∈ (List.replicate r' (["rose", "rose", "musk"] : List String)).flatten,
        x = "rose" ∨ x = "musk" := by
      intro x hx
      obtain ⟨l, hl, hxl⟩ := List.mem_flatten.mp hx
      have hL : l = ["rose", "rose", "musk"] := List.eq_of_mem_replicate hl
      subst hL
      simp only [List.mem_cons, List.not_mem_nil, or_false] at hxl
      rcases hxl with h | h | h
      · exact Or.inl h
      · exact Or.inl h
      · exact Or.inr h
    have huniq : uniqueFirst ((List.replicate (r' + 1)
        (["rose", "rose", "musk"] : List String)).flatten) = ["rose", "musk"] := by
      rw [hflat, uniqueFirst]
      rw [uniqueFirst_two "rose" "musk" (by decide) _ hmem']
      decide
    rw [getTopNotes, htoks, tally, huniq]
    rw [List.map_cons, List.map_cons, List.map_nil]
    rw [count_flatten_replicate, count_flatten_replicate]
    have hcr : (["rose", "rose", "musk"] : List String).count "rose" = 2 := by decide
    have hcm : (["rose", "rose", "musk"] : List String).count "musk" = 1 := by decide
    rw [hcr, hcm]
    have hsort : List.insertionSort countDesc
        [("rose", (r' + 1) * 2), ("musk", (r' + 1) * 1)] =
        [("rose", (r' + 1) * 2), ("musk", (r' + 1) * 1)] := by
      rw [List.insertionSort, List.insertionSort, List.insertionSort,
        List.orderedInsert, List.orderedInsert]
      rw [if_pos (by show (r' + 1) * 1 ≤ (r' + 1) * 2; omega)]
    rw [mostCommon, hsort]
    rw [List.take_of_length_le (by simp; omega)]
    have h2 : (r' + 1) * 2 = 2 * (r' + 1) := by ring
    have h1 : (r' + 1) * 1 = r' + 1 := by ring
    rw [h2, h1]

/-- C6 counterexample: on the empty table every row vacuously has the
note cell rose rose musk, yet the ranking is empty rather than the
two pairs with zero counts the claim prescribes. -/
theorem C6_counterexample :
    getTopNotes ⟨["Top"], ([] : List (List Cell))⟩ "Top" 2 = [] ∧
      ([] : List (String × Nat)) ≠ [("rose", 2 * 0), ("musk", 0)] := by
  constructor
  · decide
  · decide

/-- C6 witness: one row of rose rose musk ranks rose (count 2) above
musk (count 1). -/
theorem C6_witness :
    getTopNotes ⟨["Top"], [[Cell.str "rose rose musk"]]⟩ "Top" 2 =
      [("rose", 2 * 1), ("musk", 1)] :=
  (C6_top_tokens ⟨["Top"], [[Cell.str "rose rose musk"]]⟩ "Top" 2).2.2.2 1 2
    (by decide) (by decide)

/-- C10: the token ranking is total at its interface: a column name
absent from the header yields the empty ranking, and a cell that is
numeric, missing or blank after trimming contributes no tokens, so
appending a row whose note cell is such never changes the ranking. -/
theorem C10_top_tokens_total (t : CsvTable) (col : String) (n : Nat) :
    (col ∉ t.header → getTopNotes t col n = []) ∧
    (∀ q : ℚ, cellTokens (Cell.num q) = []) ∧
    cellTokens Cell.missing = [] ∧
    (∀ s : String, trimChars s.data = [] → cellTokens (Cell.str s) = []) ∧
    (∀ row : List Cell,
      (∀ i, t.header.findIdx? (fun h => h == col) = some i →
          cellTokens (row.getD i Cell.missing) = []) →
        getTopNotes ⟨t.header, t.rows ++ [row]⟩ col n = getTopNotes t col n) := by
  refine ⟨?_, fun _ => rfl, rfl, ?_, ?_⟩
  · intro hcol
    rw [getTopNotes, allTokens, colCells, findIdx_eq_none_of_not_mem _ _ hcol]
    show mostCommon n (tally ([] : List (List String)).flatten) = []
    rw [mostCommon]
    show (List.insertionSort countDesc []).take n = []
    rw [List.insertionSort]
    exact List.take_nil
  · intro s hs
    simp [cellTokens, hs]
  · intro row hrow
    cases hidx : t.header.findIdx? (fun h => h == col) with
    | none =>
      have h1 : colCells ⟨t.header, t.rows ++ [row]⟩ col = [] := by
        rw [colCells]
        show (match t.header.findIdx? (fun h => h == col) with
          | none => ([] : List Cell)
          | some i => (t.rows ++ [row]).map (fun (row : List Cell) => row.getD i Cell.missing)) = []
        rw [hidx]
      have h2 : colCells t col = [] := by
        rw [colCells]
        show (match t.header.findIdx? (fun h => h == col) with
          | none => ([] : List Cell)
          | some i => t.rows.map (fun (row : List Cell) => row.getD i Cell.missing)) = []
        rw [hidx]
      rw [getTopNotes, getTopNotes, allTokens, allTokens, h1, h2]
    | some i =>
      have h0 : colCells t col =
          t.rows.map (fun (row : List Cell) => row.getD i Cell.missing) := by
        rw [colCells]
        show (match t.header.findIdx? (fun h => h == col) with
          | none => ([] : List Cell)
          | some i => t.rows.map (fun (row : List Cell) => row.getD i Cell.missing)) = _
        rw [hidx]
      have h1 : colCells ⟨t.header, t.rows ++ [row]⟩ col =
          colCells t col ++ [row.getD i Cell.missing] := by
        rw [h0, colCells]
        show (match t.header.findIdx? (fun h => h == col) with
          | none => ([] : List Cell)
          | some i => (t.rows ++ [row]).map (fun (row : List Cell) => row.getD i Cell.missing)) = _
        rw [hidx]
        show (t.rows ++ [row]).map (fun (row : List Cell) => row.getD i Cell.missing) = _
        rw [List.map_append]
        rfl
      rw [getTopNotes, getTopNotes, allTokens, h1, List.map_append, List.flatten_append]
      rw [show (List.map cellTokens [row.getD i Cell.missing]).flatten =
        cellTokens (row.getD i Cell.missing) ++ [] from rfl]
      rw [hrow i hidx, allTokens, List.append_nil, List.append_nil]

/-- C10 witness: asking for a column that is not in the table yields the
empty ranking. -/
theorem C10_witness :
    getTopNotes ⟨["A"], [[Cell.str "x y"]]⟩ "B" 3 = [] :=
  (C10_top_tokens_total ⟨["A"], [[Cell.str "x y"]]⟩ "B" 3).1 (by decide)

/-! Dataset loading.  read_csv with sep set to the semicolon, a legacy
single-byte encoding, the python engine and on_bad_lines='skip' is
modelled over the lines of the text resource: the first line carries
the column names (trimmed afterwards, as the code trims df.columns); a
data line with more fields than the header is a bad line and is
skipped, while a data line with fewer fields is kept and padded with
missing cells; an empty field is a missing cell; and each cell of a
declared numeric column is coerced by to_numeric(errors='coerce'), an
unparsable cell becoming missing while its row is retained.  One
engine behavior is outside the model: when the first data row itself
has more fields than the header the engine infers an implicit index
from the extra leading fields instead of skipping the row, so the
skip theorem below pins the first data row to the header's width,
keeping every stated instance inside the modelled regime (the shipped
rectangular dataset is inside it).  A missing resource raises
FileNotFoundError in the code and any other parse-level failure raises
some other exception; both are caught and surfaced as an explicit
failure result (the code renders an error message and returns None),
modelled as an Except value.  An absent file is the none input; pandas
fails on an empty file (no columns to parse), the model's malformed
case. -/

inductive LoadErr where
  | notFound
  | malformed (reason : String)
deriving DecidableEq

def digitsToNat (cs : List Char) : Nat := cs.foldl (fun n c => 10 * n + (c.toNat - 48)) 0

def splitOnCharAux (sep : Char) : List Char → List Char → List (List Char)
  | [], acc => [acc.reverse]
  | c :: cs, acc =>
    if c = sep then acc.reverse :: splitOnCharAux sep cs []
    else splitOnCharAux sep cs (c :: acc)

/-- Model of the semicolon field splitting performed by the csv parser. -/
def splitSemi (s : String) : List String :=
  (splitOnCharAux ';' s.data []).map String.mk

/-- Model of str.strip() on a column name. -/
def trimStr (s : String) : String := String.mk (trimChars s.data)

/-- Mantissa of a numeric literal: decimal digits with at most one
decimal point and at least one digit. -/
def parseMantissa (ds : List Char) : Option ℚ :=
  match splitOnCharAux '.' ds [] with
  | [ip] =>
    if ip ≠ [] ∧ ip.all Char.isDigit then some ((digitsToNat ip : ℚ)) else none
  | [ip, fp] =>
    if (ip ≠ [] ∨ fp ≠ []) ∧ ip.all Char.isDigit ∧ fp.all Char.isDigit then
      some ((digitsToNat ip : ℚ) + (digitsToNat fp : ℚ) / (10 : ℚ) ^ fp.length)
    else none
  | _ => none

/-- Exponent of a scientific-notation literal: an optional sign and at
least one digit. -/
def parseExp (cs : List Char) : Option ℤ :=
  let es := if cs.headD ' ' = '-' ∨ cs.headD ' ' = '+' then cs.tail else cs
  if es ≠ [] ∧ es.all Char.isDigit then
    some (if cs.headD ' ' = '-' then -(digitsToNat es : ℤ) else (digitsToNat es : ℤ))
  else none

/-- Model of to_numeric(errors='coerce') on one text cell, covering the
Python float grammar over the rationals: an optional sign, a mantissa
of decimal digits with at most one decimal point, and an optional
scientific-notation exponent.  The nan spelling coerces to missing
here exactly as NaN is missing in the program; the infinite values the
program would also accept lie outside the rationals and outside every
column of this dataset, and are out of the model.  Anything else
coerces to missing. -/
def parseNumQ (s : String) : Option ℚ :=
  let t := trimChars s.data
  let neg : Bool := t.headD ' ' = '-'
  let ds := if t.headD ' ' = '-' ∨ t.headD ' ' = '+' then t.tail else t
  let parts := ds.span (fun c => !(c == 'e' || c == 'E'))
  let base : Option ℚ :=
    match parts.2 with
    | [] => parseMantissa parts.1
    | _ :: ex =>
      match parseMantissa parts.1, parseExp ex with
      | some m, some e => some (m * (10 : ℚ) ^ e)
      | _, _ => none
  base.map (fun v => if neg then -v else v)

/-- Sanity check of the numeric grammar: scientific notation parses to
its value, as to_numeric accepts it. -/
theorem parseNumQ_scientific : parseNumQ "2e1" = some 20 := by
  have h : parseNumQ "2e1" =
      some ((digitsToNat ['2'] : ℚ) * (10 : ℚ) ^ ((digitsToNat ['1'] : ℕ) : ℤ)) := rfl
  have h2 : digitsToNat ['2'] = 2 := by decide
  have h1 : digitsToNat ['1'] = 1 := by decide
  rw [h, h2, h1]
  norm_num

/-- An empty field of the csv is a missing cell, any other field is
text. -/
def rawCell (s : String) : Cell := if s.data = [] then Cell.missing else Cell.str s

/-- Numeric coercion of a cell: a parsable text cell becomes its number,
an unparsable one becomes missing; the row is never dropped. -/
def coerceNum (c : Cell) : Cell :=
  match c with
  | Cell.str s =>
    match parseNumQ s with
    | some q => Cell.num q
    | none => Cell.missing
  | Cell.num q => Cell.num q
  | Cell.missing => Cell.missing

/-- The declared numeric columns of the dataset. -/
def numericCols : List String := ["Rating Value", "Rating Count", "Year"]

/-- The trimmed column names from the header line. -/
def headerOf (headerLine : String) : List String := (splitSemi headerLine).map trimStr

/-- The field rows kept by the parser: a data line with more fields
than the header is a bad line and is skipped (on_bad_lines='skip');
a line with at most the header's field count is kept, short lines
padded with empty fields, which become missing cells. -/
def keptRows (w : Nat) (dataLines : List String) : List (List String) :=
  ((dataLines.map splitSemi).filter (fun fs => decide (fs.length ≤ w))).map
    (fun fs => fs ++ List.replicate (w - fs.length) "")

/-- Cell construction for one kept row: numeric columns coerced, other
columns kept as text, an empty field missing either way. -/
def coerceRow (header : List String) (fs : List String) : List Cell :=
  (header.zip fs).map (fun hc =>
    if hc.1 ∈ numericCols then coerceNum (rawCell hc.2) else rawCell hc.2)

/-- Model of the parse step of load_data over the lines of the resource. -/
def parseCsv (lines : List String) : Except LoadErr CsvTable :=
  match lines with
  | [] => Except.error (LoadErr.malformed "No columns to parse from file")
  | headerLine :: dataLines =>
    Except.ok ⟨headerOf headerLine,
      (keptRows (headerOf headerLine).length dataLines).map
        (coerceRow (headerOf headerLine))⟩

/-- Model of one call of load_data: a missing resource is the explicit
NotFound failure, a present resource is parsed, and parse-level failure
is the explicit Malformed failure; no exception escapes. -/
def loadData (file : Option (List String)) : Except LoadErr CsvTable :=
  match file with
  | none => Except.error LoadErr.notFound
  | some lines => parseCsv lines

/-- Model of the st.cache_data wrapper around load_data: the cache maps
the one source identity to the previously built result; a hit returns
the cached result and performs zero reads of the resource, a miss reads
the resource once.  The third component counts the reads performed by
the call. -/
def loadCached (file : Option (List String))
    (cache : Option (Except LoadErr CsvTable)) :
    Except LoadErr CsvTable × Option (Except LoadErr CsvTable) × Nat :=
  match cache with
  | some r => (r, some r, 0)
  | none => (loadData file, some (loadData file), 1)

/-- C8: loading is deterministic and cached: after any call, a repeated
call on the same unchanged source returns the identical result (same
rows, same order, same coerced values), leaves the cache unchanged and
performs zero reads of the resource. -/
theorem C8_load_cached_idempotent (file : Option (List String))
    (cache : Option (Except LoadErr CsvTable)) :
    loadCached file (loadCached file cache).2.1 =
      ((loadCached file cache).1, (loadCached file cache).2.1, 0) := by
  cases cache <;> rfl

end Frag
